import Mathlib

/-!
# cli.js: the command-line orchestrator

A shallow embedding of `src/cli.js`.  The script is a straight-line sequence of
calls into collaborators that live in other modules (`auditAll`,
`runFlowsForUrl`, `saveResult`, `generateHtmlReport`, the formatters) and into
the Node runtime (`fs.readFileSync`, `JSON.parse`, `JSON.stringify`,
`console.log`, `console.error`, `process.exit`).  The collaborators are taken
as parameters (`World`); a run of the script is a computation that appends to a
trace of observable events and either finishes, calls `process.exit`, or is
ended by an exception nobody catches (the script has no `try`).

Strings are lists of characters.  Every character the script inspects (the
comma, the white space removed by `trim`) lies in the Basic Multilingual Plane,
so working with code points instead of UTF-16 code units does not change where
a string is cut.
-/

namespace Cli

/-- A JavaScript string. -/
abbrev JsString := List Char

/-- The outcome of calling a JavaScript function: it returns a value, or it
throws (for an awaited promise: it rejects) with a message. -/
inductive JsResult (α : Type) where
  | returned (value : α)
  | threw (message : JsString)
  deriving DecidableEq, Repr

/-! ## String built-ins used by the script -/

/-- White space as `String.prototype.trim` understands it: the ECMAScript
`WhiteSpace` and `LineTerminator` code points. -/
def isJsWhitespace (c : Char) : Bool :=
  let n := c.toNat
  n = 0x09 || n = 0x0A || n = 0x0B || n = 0x0C || n = 0x0D || n = 0x20 ||
  n = 0xA0 || n = 0x1680 || (0x2000 ≤ n && n ≤ 0x200A) || n = 0x2028 ||
  n = 0x2029 || n = 0x202F || n = 0x205F || n = 0x3000 || n = 0xFEFF

/-- The scan behind `s.split(sep)` for a one-character separator: `cur` holds
the piece being read, in reverse. -/
def splitLoop (sep : Char) : List Char → JsString → List JsString
  | cur, [] => [cur.reverse]
  | cur, c :: rest =>
    if c = sep then cur.reverse :: splitLoop sep [] rest
    else splitLoop sep (c :: cur) rest

/-- The call `s.split(',')`: the pieces of `s` between commas; there is always
at least one piece (`''.split(',')` is `['']`). -/
def split (s : JsString) : List JsString :=
  splitLoop ',' [] s

/-- The call `s.trim()`: white space removed from both ends. -/
def trim (s : JsString) : JsString :=
  ((s.dropWhile isJsWhitespace).reverse.dropWhile isJsWhitespace).reverse

/-- The call `Boolean(s)` on a string: true unless the string is empty. -/
def stringTruthy (s : JsString) : Bool :=
  !s.isEmpty

/-- Truthiness of a value that is a string or `undefined`. -/
def truthy : Option JsString → Bool
  | none => false
  | some s => stringTruthy s

/-- The call `xs.join(sep)`. -/
def join (sep : JsString) : List JsString → JsString
  | [] => []
  | [x] => x
  | x :: y :: rest => x ++ sep ++ join sep (y :: rest)

/-- The expression `argv.url.split(',').map(s => s.trim()).filter(Boolean)`
applied to the string `argv.url`. -/
def urlsOf (s : JsString) : List JsString :=
  ((split s).map trim).filter stringTruthy

/-! ## Command line, collaborators, events -/

/-- The parsed command line (`argv`) as `yargs` hands it to the script (`--help`
and an invalid `--format` choice never get that far), restricted to the
options the script reads, each given at most once.  `url` and `thresholds` are
`undefined` when the option is not given; `flows` left out counts as false. -/
structure Args where
  url : Option JsString
  flows : Bool
  thresholds : Option JsString
  save : Bool
  simple : Bool
  format : JsString
  deriving DecidableEq, Repr

/-- Everything the script calls but does not define.  `V` is the type of
JavaScript values handed around (thresholds, results, simple results).
`testUrlEnv` is `process.env.TEST_URL`.  `generateHtmlReport` is called without
`await`: `threw` stands for a synchronous throw, the only failure the script
can observe.  The formatters and `JSON.stringify` are pure projections. -/
structure World (V : Type) where
  testUrlEnv : Option JsString
  emptyObject : V
  readFileSync : JsString → JsResult JsString
  jsonParse : JsString → JsResult V
  runFlowsForUrl : JsString → JsResult V
  auditAll : List JsString → V → JsResult V
  saveResult : V → JsResult Unit
  generateHtmlReport : V → JsResult Unit
  formatToSimpleResults : V → V
  formatAsString : V → JsString
  formatAsJSON : V → JsString
  jsonStringify : V → JsString

/-- What an observer of one run can see, in order: lines written to the two
output streams and calls into the collaborators, each with its arguments and
how it came back. -/
inductive Event (V : Type) where
  | consoleLog (text : JsString)
  | consoleError (text : JsString)
  | readFileSync (path : JsString) (res : JsResult JsString)
  | jsonParse (text : JsString) (res : JsResult V)
  | runFlowsForUrl (url : JsString) (res : JsResult V)
  | auditAll (urls : List JsString) (thresholds : V) (res : JsResult V)
  | saveResult (result : V) (res : JsResult Unit)
  | generateHtmlReport (result : V) (res : JsResult Unit)
  deriving DecidableEq, Repr

/-- Why a run stopped before the last statement. -/
inductive Halt where
  | exit (code : Nat)
  | uncaught (message : JsString)
  deriving DecidableEq, Repr

/-- A script computation: it extends the trace and yields a value or halts. -/
def Proc (V : Type) (α : Type) : Type :=
  List (Event V) → List (Event V) × Except Halt α

/-- Sequencing of script computations: a halt skips the rest. -/
def Proc.bind {V α β : Type} (m : Proc V α) (f : α → Proc V β) : Proc V β :=
  fun t =>
    match m t with
    | (t1, .ok a) => f a t1
    | (t1, .error h) => (t1, .error h)

instance {V : Type} : Monad (Proc V) where
  pure a := fun t => (t, .ok a)
  bind := Proc.bind

/-- Record one event. -/
def emit {V : Type} (e : Event V) : Proc V Unit :=
  fun t => (t ++ [e], .ok ())

/-- Record a call and continue with its value, or halt if it threw. -/
def call {V α : Type} (mk : JsResult α → Event V) (r : JsResult α) : Proc V α :=
  fun t =>
    match r with
    | .returned v => (t ++ [mk r], .ok v)
    | .threw msg => (t ++ [mk r], .error (.uncaught msg))

/-- The call `process.exit(code)`. -/
def processExit {V α : Type} (code : Nat) : Proc V α :=
  fun t => (t, .error (.exit code))

/-- The message of the `TypeError` raised by a method call on `undefined`. -/
def typeErrorMessage : JsString :=
  "TypeError: Cannot read properties of undefined".toList

/-- The method call `argv.url.split(',')`: a `TypeError` when `argv.url` is
`undefined`. -/
def splitMethod {V : Type} : Option JsString → Proc V (List JsString)
  | some s => pure (split s)
  | none => fun t => (t, .error (.uncaught typeErrorMessage))

/-- The string literal `'https://example.com'`. -/
def fallbackUrl : JsString :=
  "https://example.com".toList

/-- The string literal `'json'`. -/
def formatJson : JsString :=
  "json".toList

/-- The string literal `'string'`, the default of `--format`. -/
def formatString : JsString :=
  "string".toList

/-- The template literal of line 24. -/
def flowsBanner (testUrl : JsString) : JsString :=
  "🧪 Running E2E flows for: ".toList ++ testUrl

/-- The template literal of line 58. -/
def suiteBanner (urls : List JsString) : JsString :=
  "🧪 Running full test suite for: ".toList ++ join ", ".toList urls

/-- The message of line 48. -/
def usageMessage : JsString :=
  "Error: --url is required when not using --flows".toList

/-- The expression `argv.url || process.env.TEST_URL || 'https://example.com'`:
`a || b` is `a` when `a` is truthy and `b` otherwise. -/
def flowsTarget (url env : Option JsString) : JsString :=
  match (if truthy url then url else env) with
  | some s => if stringTruthy s then s else fallbackUrl
  | none => fallbackUrl

/-- The output step shared by both branches (lines 32-42 and 71-81). -/
def printResult {V : Type} (w : World V) (argv : Args) (result : V) : Proc V Unit :=
  if argv.simple then
    let simpleResults := w.formatToSimpleResults result
    if argv.format = formatJson then
      emit (.consoleLog (w.formatAsJSON simpleResults))
    else
      emit (.consoleLog (w.formatAsString simpleResults))
  else
    emit (.consoleLog (w.jsonStringify result))

/-- The body of `cli.js`, statement by statement. -/
def cli {V : Type} (w : World V) (argv : Args) : Proc V Unit := do
  if argv.flows then
    let testUrl := flowsTarget argv.url w.testUrlEnv
    emit (.consoleLog (flowsBanner testUrl))
    let flowsResult ← call (.runFlowsForUrl testUrl) (w.runFlowsForUrl testUrl)
    call (.generateHtmlReport flowsResult) (w.generateHtmlReport flowsResult)
    printResult w argv flowsResult
    processExit 0
  if !truthy argv.url then
    emit (.consoleError usageMessage)
    processExit 1
  let urls := ((← splitMethod argv.url).map trim).filter stringTruthy
  let mut thresholds := w.emptyObject
  if truthy argv.thresholds then
    let content ← call (.readFileSync (argv.thresholds.getD [])) (w.readFileSync (argv.thresholds.getD []))
    thresholds ← call (.jsonParse content) (w.jsonParse content)
  emit (.consoleLog (suiteBanner urls))
  let run ← call (.auditAll urls thresholds) (w.auditAll urls thresholds)
  if argv.save then
    call (.saveResult run) (w.saveResult run)
  call (.generateHtmlReport run) (w.generateHtmlReport run)
  printResult w argv run

/-- How a run ended. -/
inductive Status where
  | finished
  | exited (code : Nat)
  | uncaught (message : JsString)
  deriving DecidableEq, Repr

/-- One run of the process: the trace and how it ended. -/
structure Run (V : Type) where
  trace : List (Event V)
  status : Status

/-- Run the script from an empty trace. -/
def runCli {V : Type} (w : World V) (argv : Args) : Run V :=
  match cli w argv [] with
  | (t, .ok _) => ⟨t, .finished⟩
  | (t, .error (.exit code)) => ⟨t, .exited code⟩
  | (t, .error (.uncaught msg)) => ⟨t, .uncaught msg⟩

/-- The process exit code as Node reports it: the argument of `process.exit`,
0 when the script runs to its end (no collaborator sets `process.exitCode`),
1 for an uncaught exception, which a rejected top-level `await` is too. -/
def Run.exitCode {V : Type} (r : Run V) : Nat :=
  match r.status with
  | .finished => 0
  | .exited code => code
  | .uncaught _ => 1

/-! ## Observations on a trace -/

/-- The lines written to standard output, in order. -/
def stdoutLines {V : Type} : List (Event V) → List JsString
  | [] => []
  | .consoleLog text :: rest => text :: stdoutLines rest
  | _ :: rest => stdoutLines rest

/-- Whether a result came back as an exception. -/
def JsResult.isThrew {α : Type} : JsResult α → Bool
  | .returned _ => false
  | .threw _ => true

/-- Whether the event is a call that threw. -/
def Event.callThrew {V : Type} : Event V → Bool
  | .consoleLog _ => false
  | .consoleError _ => false
  | .readFileSync _ res => res.isThrew
  | .jsonParse _ res => res.isThrew
  | .runFlowsForUrl _ res => res.isThrew
  | .auditAll _ _ res => res.isThrew
  | .saveResult _ res => res.isThrew
  | .generateHtmlReport _ res => res.isThrew

/-- Whether the event is a call of `runFlowsForUrl`. -/
def Event.isRunFlows {V : Type} : Event V → Bool
  | .runFlowsForUrl _ _ => true
  | _ => false

/-- Whether the event is a call of `auditAll`. -/
def Event.isAuditAll {V : Type} : Event V → Bool
  | .auditAll _ _ _ => true
  | _ => false

/-- Whether the event is a call of `saveResult`. -/
def Event.isSave {V : Type} : Event V → Bool
  | .saveResult _ _ => true
  | _ => false

/-- Whether the event is a call of `generateHtmlReport`. -/
def Event.isReport {V : Type} : Event V → Bool
  | .generateHtmlReport _ _ => true
  | _ => false

/-- Whether the event reads or parses the thresholds file. -/
def Event.isThresholdsLoad {V : Type} : Event V → Bool
  | .readFileSync _ _ => true
  | .jsonParse _ _ => true
  | _ => false

/-- The text the output step prints for a result. -/
def outputText {V : Type} (w : World V) (argv : Args) (result : V) : JsString :=
  if argv.simple then
    if argv.format = formatJson then w.formatAsJSON (w.formatToSimpleResults result)
    else w.formatAsString (w.formatToSimpleResults result)
  else w.jsonStringify result

/-! ## The script in direct style

The same runs written as explicit case distinctions on what each call
returns; `runCli_eq_directRun` below shows the two agree. -/

/-- The report and the output step for a result `r`, after the events `pre`;
`final` is how the run ends when nothing throws. -/
def reportAndPrint {V : Type} (w : World V) (argv : Args) (pre : List (Event V)) (r : V)
    (final : Status) : Run V :=
  match w.generateHtmlReport r with
  | .threw msg => ⟨pre ++ [.generateHtmlReport r (.threw msg)], .uncaught msg⟩
  | .returned u =>
    ⟨pre ++ [.generateHtmlReport r (.returned u), .consoleLog (outputText w argv r)], final⟩

/-- Lines 21-44: the `--flows` branch. -/
def flowsRun {V : Type} (w : World V) (argv : Args) : Run V :=
  match w.runFlowsForUrl (flowsTarget argv.url w.testUrlEnv) with
  | .threw msg =>
    ⟨[.consoleLog (flowsBanner (flowsTarget argv.url w.testUrlEnv)),
      .runFlowsForUrl (flowsTarget argv.url w.testUrlEnv) (.threw msg)], .uncaught msg⟩
  | .returned r =>
    reportAndPrint w argv
      [.consoleLog (flowsBanner (flowsTarget argv.url w.testUrlEnv)),
        .runFlowsForUrl (flowsTarget argv.url w.testUrlEnv) (.returned r)] r (.exited 0)

/-- Lines 58-81: banner, audit, optional save, report, output, after the
thresholds events `pre` left the thresholds `th`. -/
def auditRun {V : Type} (w : World V) (argv : Args) (urls : List JsString)
    (pre : List (Event V)) (th : V) : Run V :=
  match w.auditAll urls th with
  | .threw msg =>
    ⟨pre ++ [.consoleLog (suiteBanner urls), .auditAll urls th (.threw msg)], .uncaught msg⟩
  | .returned r =>
    if argv.save then
      match w.saveResult r with
      | .threw msg =>
        ⟨pre ++ [.consoleLog (suiteBanner urls), .auditAll urls th (.returned r),
          .saveResult r (.threw msg)], .uncaught msg⟩
      | .returned u =>
        reportAndPrint w argv
          (pre ++ [.consoleLog (suiteBanner urls), .auditAll urls th (.returned r),
            .saveResult r (.returned u)]) r .finished
    else
      reportAndPrint w argv
        (pre ++ [.consoleLog (suiteBanner urls), .auditAll urls th (.returned r)]) r .finished

/-- Lines 52-81 for a non-empty `--url` string `s`. -/
def suiteRun {V : Type} (w : World V) (argv : Args) (s : JsString) : Run V :=
  match argv.thresholds with
  | none => auditRun w argv (urlsOf s) [] w.emptyObject
  | some path =>
    if stringTruthy path then
      match w.readFileSync path with
      | .threw msg => ⟨[.readFileSync path (.threw msg)], .uncaught msg⟩
      | .returned content =>
        match w.jsonParse content with
        | .threw msg =>
          ⟨[.readFileSync path (.returned content), .jsonParse content (.threw msg)],
            .uncaught msg⟩
        | .returned th =>
          auditRun w argv (urlsOf s)
            [.readFileSync path (.returned content), .jsonParse content (.returned th)] th
    else auditRun w argv (urlsOf s) [] w.emptyObject

/-- The whole script. -/
def directRun {V : Type} (w : World V) (argv : Args) : Run V :=
  if argv.flows then flowsRun w argv
  else
    match argv.url with
    | none => ⟨[.consoleError usageMessage], .exited 1⟩
    | some s =>
      if stringTruthy s then suiteRun w argv s
      else ⟨[.consoleError usageMessage], .exited 1⟩

/-- The URL lists handed to `auditAll`, one per call, in order. -/
def auditedUrls {V : Type} : List (Event V) → List (List JsString)
  | [] => []
  | .auditAll urls _ _ :: rest => urls :: auditedUrls rest
  | _ :: rest => auditedUrls rest

/-- A run produced the result `r`: `runFlowsForUrl` or `auditAll` returned it. -/
def producedResult {V : Type} (t : List (Event V)) (r : V) : Prop :=
  (∃ url, Event.runFlowsForUrl url (.returned r) ∈ t) ∨
    (∃ urls th, Event.auditAll urls th (.returned r) ∈ t)

/-! ## The URL set as the specification words it -/

/-- Drop every element that was seen before, keeping first occurrences in
order; `seen` holds what has been met so far. -/
def dedupKeepFirst : List JsString → List JsString → List JsString
  | _, [] => []
  | seen, x :: rest =>
    if x ∈ seen then dedupKeepFirst seen rest
    else x :: dedupKeepFirst (x :: seen) rest

/-- The URL set in the specification's words: "the deduplicated, trimmed,
non-empty subset of the input list, preserving first-occurrence order". -/
def specUrlSet (s : JsString) : List JsString :=
  dedupKeepFirst [] (((s.splitOn ',').map trim).filter (fun p => decide (p ≠ [])))

/-! ## Sample command lines and collaborators -/

/-- A world in which every collaborator returns; a value is written as a short
text, the flow result `flows` and the run record `run`. -/
def sampleWorld : World JsString where
  testUrlEnv := none
  emptyObject := "\x7b\x7d".toList
  readFileSync := fun _ => .returned "not json".toList
  jsonParse := fun text => .returned text
  runFlowsForUrl := fun _ => .returned "flows".toList
  auditAll := fun _ _ => .returned "run".toList
  saveResult := fun _ => .returned ()
  generateHtmlReport := fun _ => .returned ()
  formatToSimpleResults := fun v => "simple ".toList ++ v
  formatAsString := fun v => "text of ".toList ++ v
  formatAsJSON := fun v => "json of ".toList ++ v
  jsonStringify := fun v => "full ".toList ++ v

/-- The sample world with `TEST_URL=https://b.test` in the environment. -/
def worldWithTestUrl : World JsString :=
  { sampleWorld with testUrlEnv := some "https://b.test".toList }

/-- The sample world with a thresholds file that `JSON.parse` rejects. -/
def worldBadThresholds : World JsString :=
  { sampleWorld with jsonParse := fun _ => .threw "SyntaxError".toList }

/-- The sample world with a flow runner that cannot create a session. -/
def worldFlowsFail : World JsString :=
  { sampleWorld with runFlowsForUrl := fun _ => .threw "no session".toList }

/-- The command line with no option given: the defaults of lines 11-18. -/
def noArgs : Args where
  url := none
  flows := false
  thresholds := none
  save := false
  simple := false
  format := formatString

/-- The command line `--url ' https://a.test , ,https://b.test'`. -/
def argsUrlList : Args :=
  { noArgs with url := some " https://a.test , ,https://b.test".toList }

/-- The command line `--url 'https://a.test,https://a.test'`. -/
def argsDuplicateUrl : Args :=
  { noArgs with url := some "https://a.test,https://a.test".toList }

/-- The command line `--url https://a.test --thresholds bad.json`. -/
def argsBadThresholds : Args :=
  { noArgs with url := some "https://a.test".toList, thresholds := some "bad.json".toList }

/-- The command line `--flows`. -/
def argsFlows : Args :=
  { noArgs with flows := true }

/-- The command line `--flows --url ''`. -/
def argsFlowsEmptyUrl : Args :=
  { noArgs with flows := true, url := some [] }

/-- The command line `--flows --url https://a.test --save`. -/
def argsFlowsSave : Args :=
  { noArgs with flows := true, url := some "https://a.test".toList, save := true }

/-- The command line `--flows --thresholds bad.json`. -/
def argsFlowsBadThresholds : Args :=
  { noArgs with flows := true, thresholds := some "bad.json".toList }

/-! ## The monadic script and the direct style agree -/

theorem printResult_apply {V : Type} (w : World V) (a : Args) (r : V) (t : List (Event V)) :
    printResult w a r t = (t ++ [.consoleLog (outputText w a r)], .ok ()) := by
  unfold printResult outputText emit
  split
  · split <;> rfl
  · rfl

theorem runCli_flows {V : Type} (w : World V) (a : Args) (h : a.flows = true) :
    runCli w a = flowsRun w a := by
  simp only [runCli, cli, h, flowsRun, reportAndPrint]
  cases hrun : w.runFlowsForUrl (flowsTarget a.url w.testUrlEnv) with
  | threw m => simp [bind, pure, Proc.bind, emit, call, processExit, printResult_apply, hrun]
  | returned v =>
    cases hrep : w.generateHtmlReport v <;>
      simp [bind, pure, Proc.bind, emit, call, processExit, printResult_apply, hrun, hrep]

theorem runCli_usage {V : Type} (w : World V) (a : Args) (h : a.flows = false)
    (hu : truthy a.url = false) :
    runCli w a = ⟨[.consoleError usageMessage], .exited 1⟩ := by
  simp only [runCli, cli, h, hu]
  simp [bind, Proc.bind, emit, processExit, pure]

theorem runCli_suite {V : Type} (w : World V) (a : Args) (s : JsString) (h : a.flows = false)
    (hu : a.url = some s) (hst : stringTruthy s = true) :
    runCli w a = suiteRun w a s := by
  simp only [runCli, cli, h, hu, truthy, hst, splitMethod, suiteRun, auditRun, reportAndPrint,
    urlsOf]
  cases hthr : a.thresholds with
  | none =>
    cases haud : w.auditAll (List.filter stringTruthy (List.map trim (split s))) w.emptyObject with
    | threw m => simp [bind, pure, Proc.bind, emit, call, processExit, printResult_apply, truthy, haud]
    | returned r =>
      cases hsave : a.save <;> cases hsv : w.saveResult r <;>
        cases hrep : w.generateHtmlReport r <;>
        simp [bind, pure, Proc.bind, emit, call, processExit, printResult_apply, truthy, haud, hsv,
          hrep]
  | some p =>
    cases hp : stringTruthy p with
    | false =>
      cases haud : w.auditAll (List.filter stringTruthy (List.map trim (split s))) w.emptyObject with
      | threw m =>
        simp [bind, pure, Proc.bind, emit, call, processExit, printResult_apply, truthy, hp, haud]
      | returned r =>
        cases hsave : a.save <;> cases hsv : w.saveResult r <;>
          cases hrep : w.generateHtmlReport r <;>
          simp [bind, pure, Proc.bind, emit, call, processExit, printResult_apply, truthy, hp, haud,
            hsv, hrep]
    | true =>
      cases hread : w.readFileSync p with
      | threw m =>
        simp [bind, pure, Proc.bind, emit, call, processExit, printResult_apply, truthy, hp, hread]
      | returned c =>
        cases hparse : w.jsonParse c with
        | threw m =>
          simp [bind, pure, Proc.bind, emit, call, processExit, printResult_apply, truthy, hp, hread,
            hparse]
        | returned th =>
          cases haud : w.auditAll (List.filter stringTruthy (List.map trim (split s))) th with
          | threw m =>
            simp [bind, pure, Proc.bind, emit, call, processExit, printResult_apply, truthy, hp,
              hread, hparse, haud]
          | returned r =>
            cases hsave : a.save <;> cases hsv : w.saveResult r <;>
              cases hrep : w.generateHtmlReport r <;>
              simp [bind, pure, Proc.bind, emit, call, processExit, printResult_apply, truthy, hp,
                hread, hparse, haud, hsv, hrep]

/-- The monadic script and the direct style describe the same run. -/
theorem runCli_eq_directRun {V : Type} (w : World V) (a : Args) : runCli w a = directRun w a := by
  unfold directRun
  cases hf : a.flows with
  | true => simpa using runCli_flows w a hf
  | false =>
    cases hu : a.url with
    | none => simpa using runCli_usage w a hf (by rw [hu]; rfl)
    | some s =>
      cases hst : stringTruthy s with
      | false => simpa [hst] using runCli_usage w a hf (by rw [hu]; exact hst)
      | true => simpa [hst] using runCli_suite w a s hf hu hst

/-! ## Facts about the string built-ins -/

theorem splitLoop_eq_go (sep : Char) (s cur : JsString) :
    splitLoop sep cur s = List.splitOnP.go (fun c => c == sep) s cur := by
  induction s generalizing cur with
  | nil => simp [splitLoop, List.splitOnP.go]
  | cons c rest ih =>
    by_cases hc : c = sep
    · simp [splitLoop, List.splitOnP.go, hc, ih]
    · simp [splitLoop, List.splitOnP.go, hc, ih]

/-- The scan computes the library's `splitOn`. -/
theorem split_eq_splitOn (s : JsString) : split s = s.splitOn ',' := by
  simp [split, splitLoop_eq_go, List.splitOn, List.splitOnP]

theorem splitOnP_sep_free (sep : Char) (s : JsString) :
    ∀ p ∈ s.splitOnP (fun c => c == sep), sep ∉ p := by
  induction s with
  | nil => simp
  | cons c rest ih =>
    rw [List.splitOnP_cons]
    by_cases hc : c = sep
    · simp only [hc, beq_self_eq_true, if_true, List.mem_cons]
      rintro p (rfl | hp)
      · simp
      · exact ih p hp
    · have hne : (c == sep) = false := by simpa using hc
      simp only [hne, Bool.false_eq_true, if_false]
      cases hsp : List.splitOnP (fun c => c == sep) rest with
      | nil => simp
      | cons q qs =>
        rw [hsp] at ih
        intro p hp
        simp only [List.modifyHead, List.mem_cons] at hp
        rcases hp with rfl | hp
        · have := ih q (List.mem_cons_self _ _)
          simp only [List.mem_cons, not_or]
          exact ⟨fun h => hc h.symm, this⟩
        · exact ih p (List.mem_cons_of_mem _ hp)

/-- No piece of a split contains a comma. -/
theorem split_comma_free (s : JsString) : ∀ p ∈ split s, ',' ∉ p := by
  rw [split_eq_splitOn]
  exact splitOnP_sep_free ',' s

/-- Joining the pieces with commas gives the string back. -/
theorem split_join (s : JsString) : [','].intercalate (split s) = s := by
  rw [split_eq_splitOn]
  exact List.intercalate_splitOn s ','

/-- What `trim` removes is white space, on both sides. -/
theorem trim_decompose (p : JsString) :
    ∃ l r, p = l ++ trim p ++ r ∧ (∀ c ∈ l, isJsWhitespace c = true) ∧
      (∀ c ∈ r, isJsWhitespace c = true) := by
  refine ⟨p.takeWhile isJsWhitespace,
    (((p.dropWhile isJsWhitespace).reverse).takeWhile isJsWhitespace).reverse, ?_, ?_, ?_⟩
  · have h1 := List.takeWhile_append_dropWhile isJsWhitespace p
    have h2 := List.takeWhile_append_dropWhile isJsWhitespace (p.dropWhile isJsWhitespace).reverse
    have h3 : p.dropWhile isJsWhitespace =
        trim p ++ (((p.dropWhile isJsWhitespace).reverse).takeWhile isJsWhitespace).reverse := by
      have := congrArg List.reverse h2
      simp only [List.reverse_append, List.reverse_reverse] at this
      exact this.symm
    calc p = p.takeWhile isJsWhitespace ++ p.dropWhile isJsWhitespace := h1.symm
      _ = p.takeWhile isJsWhitespace ++ (trim p ++
            (((p.dropWhile isJsWhitespace).reverse).takeWhile isJsWhitespace).reverse) := by
          rw [← h3]
      _ = _ := by simp
  · intro c hc
    exact List.mem_takeWhile_imp hc
  · intro c hc
    exact List.mem_takeWhile_imp (List.mem_reverse.mp hc)

/-- A trimmed string does not end in white space. -/
theorem trim_getLast (p : JsString) (c : Char) (h : (trim p).getLast? = some c) :
    isJsWhitespace c = false := by
  unfold trim at h
  rw [List.getLast?_reverse] at h
  have := List.head?_dropWhile_not isJsWhitespace (p.dropWhile isJsWhitespace).reverse
  rw [h] at this
  simpa using this

/-- A trimmed string does not start with white space. -/
theorem trim_head (p : JsString) (c : Char) (h : (trim p).head? = some c) :
    isJsWhitespace c = false := by
  have h2 := List.takeWhile_append_dropWhile isJsWhitespace (p.dropWhile isJsWhitespace).reverse
  have h3 : p.dropWhile isJsWhitespace =
      trim p ++ (((p.dropWhile isJsWhitespace).reverse).takeWhile isJsWhitespace).reverse := by
    have := congrArg List.reverse h2
    simp only [List.reverse_append, List.reverse_reverse] at this
    exact this.symm
  have h4 : (p.dropWhile isJsWhitespace).head? = some c := by
    rw [h3, List.head?_append, h]
    rfl
  have := List.head?_dropWhile_not isJsWhitespace p
  rw [h4] at this
  simpa using this

theorem stringTruthy_iff (s : JsString) : stringTruthy s = true ↔ s ≠ [] := by
  cases s <;> simp [stringTruthy]

theorem urlsOf_eq (s : JsString) :
    urlsOf s = ((s.splitOn ',').map trim).filter (fun p => decide (p ≠ [])) := by
  unfold urlsOf
  rw [split_eq_splitOn]
  apply List.filter_congr
  intro x _
  cases x <;> simp [stringTruthy]

/-- Every audited URL is non-empty and has no white space at either end. -/
theorem urlsOf_clean (s u : JsString) (hu : u ∈ urlsOf s) :
    u ≠ [] ∧ (∀ c, u.head? = some c → isJsWhitespace c = false) ∧
      (∀ c, u.getLast? = some c → isJsWhitespace c = false) := by
  unfold urlsOf at hu
  rw [List.mem_filter, List.mem_map] at hu
  obtain ⟨⟨p, _, rfl⟩, hne⟩ := hu
  exact ⟨(stringTruthy_iff _).mp hne, trim_head p, trim_getLast p⟩

/-! ## Facts about first-occurrence deduplication -/

theorem dedupKeepFirst_length_le (seen l : List JsString) :
    (dedupKeepFirst seen l).length ≤ l.length := by
  induction l generalizing seen with
  | nil => simp [dedupKeepFirst]
  | cons x rest ih =>
    unfold dedupKeepFirst
    split
    · exact Nat.le_succ_of_le (ih seen)
    · simpa using ih (x :: seen)

/-- Deduplication leaves a list alone exactly when it has no repeated element
and none that was seen before. -/
theorem dedupKeepFirst_eq_self_iff (seen l : List JsString) :
    dedupKeepFirst seen l = l ↔ l.Nodup ∧ ∀ x ∈ l, x ∉ seen := by
  induction l generalizing seen with
  | nil => simp [dedupKeepFirst]
  | cons x rest ih =>
    unfold dedupKeepFirst
    by_cases hx : x ∈ seen
    · simp only [hx, if_true]
      constructor
      · intro h
        have := dedupKeepFirst_length_le seen rest
        rw [h] at this
        simp at this
      · intro h
        exact absurd hx (h.2 x (List.mem_cons_self _ _))
    · simp only [hx, if_false, List.cons.injEq, true_and, ih, List.nodup_cons, List.mem_cons,
        not_or]
      constructor
      · rintro ⟨hnd, hall⟩
        refine ⟨⟨fun hmem => (hall x hmem).1 rfl, hnd⟩, ?_⟩
        rintro y (rfl | hy)
        · exact hx
        · exact (hall y hy).2
      · rintro ⟨⟨hnot, hnd⟩, hall⟩
        refine ⟨hnd, fun y hy => ⟨?_, hall y (Or.inr hy)⟩⟩
        rintro rfl
        exact hnot hy

/-! ## Claims -/

/-- C1: without `--flows` and with a non-empty `--url` string `s`, every call
of `auditAll` receives exactly the pieces of `s` between commas, each trimmed,
the empty ones dropped, in their original order, and the call is made once
the thresholds are loaded; trimming removes white space only, and every URL of
the list is non-empty with no white space at either end. -/
theorem C1_urls_are_split_trimmed_nonempty {V : Type} (w : World V) (a : Args) (s : JsString)
    (hflows : a.flows = false) (hurl : a.url = some s) (hs : s ≠ []) :
    (∀ us th res, Event.auditAll us th res ∈ (runCli w a).trace →
        us = ((s.splitOn ',').map trim).filter (fun p => decide (p ≠ []))) ∧
      ((∀ e ∈ (runCli w a).trace, e.isThresholdsLoad = true → e.callThrew = false) →
        auditedUrls (runCli w a).trace =
          [((s.splitOn ',').map trim).filter (fun p => decide (p ≠ []))]) ∧
      (∀ p : JsString, (∃ l r, p = l ++ trim p ++ r ∧ (∀ c ∈ l, isJsWhitespace c = true) ∧
          (∀ c ∈ r, isJsWhitespace c = true)) ∧
        (∀ c, (trim p).head? = some c → isJsWhitespace c = false) ∧
        (∀ c, (trim p).getLast? = some c → isJsWhitespace c = false)) ∧
      (∀ u ∈ ((s.splitOn ',').map trim).filter (fun p => decide (p ≠ [])),
        u ≠ [] ∧ (∀ c, u.head? = some c → isJsWhitespace c = false) ∧
          (∀ c, u.getLast? = some c → isJsWhitespace c = false)) := by
  have hst : stringTruthy s = true := (stringTruthy_iff s).mpr hs
  rw [← urlsOf_eq, runCli_eq_directRun]
  simp only [directRun, hflows, hurl, hst, suiteRun, auditRun, reportAndPrint]
  refine ⟨?_, ?_, fun p => ⟨trim_decompose p, trim_head p, trim_getLast p⟩,
    fun u hu => urlsOf_clean s u hu⟩
  · intro us th res
    repeat' split
    all_goals simp_all
  · repeat' split
    all_goals simp_all [auditedUrls, Event.isThresholdsLoad, Event.callThrew, JsResult.isThrew]

/-- A run of C1 at `--url ' https://a.test , ,https://b.test'`: the audited
list is `['https://a.test', 'https://b.test']`. -/
theorem C1_urls_are_split_trimmed_nonempty_witness :
    (argsUrlList.flows = false ∧ argsUrlList.url = some " https://a.test , ,https://b.test".toList) ∧
      auditedUrls (runCli sampleWorld argsUrlList).trace =
        [["https://a.test".toList, "https://b.test".toList]] := by
  refine ⟨⟨rfl, rfl⟩, ?_⟩
  have h := (C1_urls_are_split_trimmed_nonempty sampleWorld argsUrlList
    " https://a.test , ,https://b.test".toList rfl rfl (by decide)).2.1 (by decide)
  rw [h]
  decide

/-- C2, as stated, fails: for `--url 'https://a.test,https://a.test'` the list
handed to `auditAll` holds the URL twice, while the deduplicated list of the
specification holds it once. -/
theorem C2_duplicate_url_is_audited_twice :
    auditedUrls (runCli sampleWorld argsDuplicateUrl).trace =
        [["https://a.test".toList, "https://a.test".toList]] ∧
      specUrlSet "https://a.test,https://a.test".toList = ["https://a.test".toList] ∧
      auditedUrls (runCli sampleWorld argsDuplicateUrl).trace ≠
        [specUrlSet "https://a.test,https://a.test".toList] := by
  decide

/-- C2, amended: the list handed to `auditAll` is the trimmed, non-empty
entries of the input list in input order with duplicates kept: every non-empty
URL occurs as often as among the trimmed entries, and the list is the
deduplicated one of the specification exactly when no URL is repeated; the
list is handed over once the thresholds are loaded. -/
theorem C2_audited_urls_keep_duplicates {V : Type} (w : World V) (a : Args) (s : JsString)
    (hflows : a.flows = false) (hurl : a.url = some s) (hs : s ≠ []) :
    (∀ us ∈ auditedUrls (runCli w a).trace,
        us = ((s.splitOn ',').map trim).filter (fun p => decide (p ≠ [])) ∧
        (∀ u, u ≠ [] → us.count u = ((s.splitOn ',').map trim).count u) ∧
        (us = specUrlSet s ↔ us.Nodup)) ∧
      ((∀ e ∈ (runCli w a).trace, e.isThresholdsLoad = true → e.callThrew = false) →
        (auditedUrls (runCli w a).trace).length = 1) := by
  have hst : stringTruthy s = true := (stringTruthy_iff s).mpr hs
  have hspec : specUrlSet s = dedupKeepFirst [] (urlsOf s) := by
    unfold specUrlSet
    rw [urlsOf_eq]
  have hcount : ∀ u : JsString, u ≠ [] →
      (urlsOf s).count u = ((s.splitOn ',').map trim).count u := by
    intro u hu
    rw [urlsOf_eq]
    exact List.count_filter (by simpa using hu)
  have hdedup : urlsOf s = specUrlSet s ↔ (urlsOf s).Nodup := by
    rw [hspec, eq_comm, dedupKeepFirst_eq_self_iff]
    simp
  rw [← urlsOf_eq, runCli_eq_directRun]
  simp only [directRun, hflows, hurl, hst, suiteRun, auditRun, reportAndPrint,
    Bool.false_eq_true, if_false, if_true]
  constructor
  · intro us
    repeat' split
    all_goals
      intro hmem
      simp [auditedUrls] at hmem
    all_goals
      subst hmem
      exact ⟨rfl, hcount, hdedup⟩
  · repeat' split
    all_goals simp_all [auditedUrls, Event.isThresholdsLoad, Event.callThrew, JsResult.isThrew]

/-- A run of C2 at `--url 'https://a.test,https://a.test'`. -/
theorem C2_audited_urls_keep_duplicates_witness :
    (argsDuplicateUrl.flows = false ∧
        argsDuplicateUrl.url = some "https://a.test,https://a.test".toList) ∧
      (∀ us ∈ auditedUrls (runCli sampleWorld argsDuplicateUrl).trace,
        us = (("https://a.test,https://a.test".toList.splitOn ',').map trim).filter
            (fun p => decide (p ≠ [])) ∧
          (∀ u, u ≠ [] → us.count u =
            (("https://a.test,https://a.test".toList.splitOn ',').map trim).count u) ∧
          (us = specUrlSet "https://a.test,https://a.test".toList ↔ us.Nodup)) ∧
      ((∀ e ∈ (runCli sampleWorld argsDuplicateUrl).trace,
          e.isThresholdsLoad = true → e.callThrew = false) →
        (auditedUrls (runCli sampleWorld argsDuplicateUrl).trace).length = 1) :=
  ⟨⟨rfl, rfl⟩, C2_audited_urls_keep_duplicates sampleWorld argsDuplicateUrl
    "https://a.test,https://a.test".toList rfl rfl (by decide)⟩

/-- C4, as stated, fails: with `--flows` the thresholds file is never read, so
a file that does not parse changes nothing: the report is generated, the
result is printed and the exit code is 0. -/
theorem C4_flows_ignores_bad_thresholds :
    (argsFlowsBadThresholds.thresholds = some "bad.json".toList ∧
        worldBadThresholds.readFileSync "bad.json".toList = .returned "not json".toList ∧
        worldBadThresholds.jsonParse "not json".toList = .threw "SyntaxError".toList) ∧
      (runCli worldBadThresholds argsFlowsBadThresholds).exitCode = 0 ∧
      (runCli worldBadThresholds argsFlowsBadThresholds).trace.countP Event.isReport = 1 ∧
      stdoutLines (runCli worldBadThresholds argsFlowsBadThresholds).trace =
        [flowsBanner fallbackUrl, "full flows".toList] := by
  decide

/-- C4, amended: without `--flows`, when `--thresholds` names a file whose
content `JSON.parse` rejects, the run ends with exit code 1 before any audit:
no `auditAll` or `runFlowsForUrl` call, no report, no save, nothing on
standard output. -/
theorem C4_bad_thresholds_abort_before_audit {V : Type} (w : World V) (a : Args)
    (path content msg : JsString) (hflows : a.flows = false)
    (hth : a.thresholds = some path) (hpath : path ≠ [])
    (hread : w.readFileSync path = .returned content)
    (hparse : w.jsonParse content = .threw msg) :
    (runCli w a).exitCode = 1 ∧
      (runCli w a).trace.countP Event.isAuditAll = 0 ∧
      (runCli w a).trace.countP Event.isRunFlows = 0 ∧
      (runCli w a).trace.countP Event.isReport = 0 ∧
      (runCli w a).trace.countP Event.isSave = 0 ∧
      stdoutLines (runCli w a).trace = [] := by
  have hst : stringTruthy path = true := (stringTruthy_iff path).mpr hpath
  rw [runCli_eq_directRun]
  simp only [directRun, hflows, suiteRun, hth, hst, hread, hparse, Bool.false_eq_true, if_false,
    if_true]
  repeat' split
  all_goals
    simp [Run.exitCode, stdoutLines, List.countP_cons, Event.isAuditAll, Event.isRunFlows,
      Event.isReport, Event.isSave]

/-- A run of C4 at `--url https://a.test --thresholds bad.json`. -/
theorem C4_bad_thresholds_abort_before_audit_witness :
    (argsBadThresholds.flows = false ∧ argsBadThresholds.thresholds = some "bad.json".toList ∧
        worldBadThresholds.readFileSync "bad.json".toList = .returned "not json".toList ∧
        worldBadThresholds.jsonParse "not json".toList = .threw "SyntaxError".toList) ∧
      (runCli worldBadThresholds argsBadThresholds).exitCode = 1 ∧
      (runCli worldBadThresholds argsBadThresholds).trace.countP Event.isAuditAll = 0 ∧
      (runCli worldBadThresholds argsBadThresholds).trace.countP Event.isRunFlows = 0 ∧
      (runCli worldBadThresholds argsBadThresholds).trace.countP Event.isReport = 0 ∧
      (runCli worldBadThresholds argsBadThresholds).trace.countP Event.isSave = 0 ∧
      stdoutLines (runCli worldBadThresholds argsBadThresholds).trace = [] :=
  ⟨⟨rfl, rfl, rfl, rfl⟩,
    C4_bad_thresholds_abort_before_audit worldBadThresholds argsBadThresholds "bad.json".toList
      "not json".toList "SyntaxError".toList rfl rfl (by decide) rfl rfl⟩

/-- C5, as stated, fails: with `--flows --url ''` and `TEST_URL=https://b.test`
the flows run against `https://b.test`, not against the `--url` value; and when
the flow run throws the exit code is 1. -/
theorem C5_empty_url_falls_through :
    (argsFlowsEmptyUrl.flows = true ∧ argsFlowsEmptyUrl.url = some [] ∧
        worldWithTestUrl.testUrlEnv = some "https://b.test".toList ∧
        (runCli worldWithTestUrl argsFlowsEmptyUrl).trace.filter Event.isRunFlows =
          [.runFlowsForUrl "https://b.test".toList (.returned "flows".toList)]) ∧
      (argsFlows.flows = true ∧ (runCli worldFlowsFail argsFlows).exitCode = 1) := by
  decide

/-- C5, amended: with `--flows` the flow suite is run against exactly one
target: the `--url` value when it is given and non-empty, otherwise the
`TEST_URL` value when it is set and non-empty, otherwise
`https://example.com`; the exit code is 0 when neither the flow run nor the
report throws. -/
theorem C5_flows_target_precedence {V : Type} (w : World V) (a : Args)
    (hflows : a.flows = true) :
    (∃ target res, (runCli w a).trace.filter Event.isRunFlows = [.runFlowsForUrl target res] ∧
        res = w.runFlowsForUrl target ∧
        (∀ u, a.url = some u → u ≠ [] → target = u) ∧
        (truthy a.url = false → ∀ t, w.testUrlEnv = some t → t ≠ [] → target = t) ∧
        (truthy a.url = false → truthy w.testUrlEnv = false →
          target = "https://example.com".toList) ∧
        (a.url = none → w.testUrlEnv = none → target = "https://example.com".toList)) ∧
      ((∀ e ∈ (runCli w a).trace, e.callThrew = false) → (runCli w a).exitCode = 0) := by
  rw [runCli_eq_directRun]
  simp only [directRun, hflows, if_true, flowsRun, reportAndPrint]
  have htarget : (∀ u, a.url = some u → u ≠ [] → flowsTarget a.url w.testUrlEnv = u) ∧
      (truthy a.url = false → ∀ t, w.testUrlEnv = some t → t ≠ [] →
        flowsTarget a.url w.testUrlEnv = t) ∧
      (truthy a.url = false → truthy w.testUrlEnv = false →
        flowsTarget a.url w.testUrlEnv = "https://example.com".toList) ∧
      (a.url = none → w.testUrlEnv = none →
        flowsTarget a.url w.testUrlEnv = "https://example.com".toList) := by
    refine ⟨?_, ?_, ?_, ?_⟩
    · intro u hu hne
      cases u with
      | nil => exact absurd rfl hne
      | cons c cs => simp [flowsTarget, hu, truthy, stringTruthy]
    · intro hfalse t ht hne
      cases t with
      | nil => exact absurd rfl hne
      | cons c cs => simp [flowsTarget, hfalse, ht, stringTruthy]
    · intro hfalse henv
      cases henv' : w.testUrlEnv with
      | none => simp [flowsTarget, hfalse, henv', fallbackUrl]
      | some t =>
        have : stringTruthy t = false := by simpa [henv', truthy] using henv
        simp [flowsTarget, hfalse, henv', this, fallbackUrl]
    · intro hu henv
      simp [flowsTarget, hu, henv, truthy, fallbackUrl]
  constructor
  · refine ⟨flowsTarget a.url w.testUrlEnv, w.runFlowsForUrl (flowsTarget a.url w.testUrlEnv),
      ?_, rfl, htarget⟩
    repeat' split
    all_goals simp_all [List.filter_cons, Event.isRunFlows]
  · repeat' split
    all_goals simp_all [Run.exitCode, Event.callThrew, JsResult.isThrew]

/-- A run of C5 at `--flows` with no `--url` and no `TEST_URL`: the flows run
against `https://example.com` and the exit code is 0. -/
theorem C5_flows_target_precedence_witness :
    argsFlows.flows = true ∧
      (runCli sampleWorld argsFlows).trace.filter Event.isRunFlows =
        [.runFlowsForUrl "https://example.com".toList (.returned "flows".toList)] ∧
      (runCli sampleWorld argsFlows).exitCode = 0 := by
  obtain ⟨⟨target, res, htrace, hres, _, _, _, hfallback⟩, hexit⟩ :=
    C5_flows_target_precedence sampleWorld argsFlows rfl
  have ht := hfallback rfl rfl
  subst ht
  subst hres
  exact ⟨rfl, htrace, hexit (by decide)⟩

/-- C6: with `--flows` set only the flow suite runs: `runFlowsForUrl` is called
exactly once and `auditAll` never, whatever the other options are; nor is the
thresholds file read or the history written. -/
theorem C6_flows_runs_only_the_flow_suite {V : Type} (w : World V) (a : Args)
    (hflows : a.flows = true) :
    (runCli w a).trace.countP Event.isRunFlows = 1 ∧
      (runCli w a).trace.countP Event.isAuditAll = 0 ∧
      (runCli w a).trace.countP Event.isThresholdsLoad = 0 ∧
      (runCli w a).trace.countP Event.isSave = 0 := by
  rw [runCli_eq_directRun]
  simp only [directRun, hflows, if_true, flowsRun, reportAndPrint]
  repeat' split
  all_goals
    simp [List.countP_cons, Event.isRunFlows, Event.isAuditAll, Event.isThresholdsLoad,
      Event.isSave]

/-- A run of C6 at `--flows --url https://a.test --save`. -/
theorem C6_flows_runs_only_the_flow_suite_witness :
    argsFlowsSave.flows = true ∧
      (runCli sampleWorld argsFlowsSave).trace.countP Event.isRunFlows = 1 ∧
      (runCli sampleWorld argsFlowsSave).trace.countP Event.isAuditAll = 0 ∧
      (runCli sampleWorld argsFlowsSave).trace.countP Event.isThresholdsLoad = 0 ∧
      (runCli sampleWorld argsFlowsSave).trace.countP Event.isSave = 0 :=
  ⟨rfl, C6_flows_runs_only_the_flow_suite sampleWorld argsFlowsSave rfl⟩

/-- C8 at `--flows --url https://a.test --save`: the full-suite path saves the
result it produced, right after the audit; the `--flows` path produces a result,
never calls `saveResult`, and exits with 0. -/
theorem C8_flows_branch_never_saves :
    (∀ (V : Type) (w : World V) (a : Args) (r : V), a.flows = false → a.save = true →
        producedResult (runCli w a).trace r →
        ∃ pre post urls th res, (runCli w a).trace =
          pre ++ [Event.auditAll urls th (.returned r), Event.saveResult r res] ++ post) ∧
      (argsFlowsSave.save = true ∧
        producedResult (runCli sampleWorld argsFlowsSave).trace "flows".toList ∧
        (runCli sampleWorld argsFlowsSave).trace.countP Event.isSave = 0 ∧
        (runCli sampleWorld argsFlowsSave).exitCode = 0) := by
  refine ⟨?_, by decide, Or.inl ⟨"https://a.test".toList, by decide⟩, by decide, by decide⟩
  intro V w a r hflows hsave
  rw [runCli_eq_directRun]
  simp only [directRun, hflows, hsave, suiteRun, auditRun, reportAndPrint, producedResult,
    Bool.false_eq_true, if_false, if_true]
  repeat' split
  all_goals
    intro hres
    simp at hres
  all_goals
    subst hres
    first
      | exact ⟨[_], _, _, _, _, rfl⟩
      | exact ⟨[_, _, _], _, _, _, _, rfl⟩

end Cli
